import Mathlib

/-!
Shallow embedding of the odinVault backend's file-lifecycle and share
services (src/services/fileService.ts, the share service, and the storage
and preview utilities), together with theorems checking the specification's
claims about them.

Strings are modelled by Lean `String`, with the character-level operations
of the JavaScript source (regex replaces, trim, substring tests) re-implemented
over `List Char`.  JavaScript `\s` and `String.prototype.trim` are embedded
with `Char.isWhitespace`; `[A-Za-z0-9]` with `Char.isAlphanum` (both are
ASCII-exact on the characters the service handles).
-/

deriving instance DecidableEq for Except

namespace OdinVault

/-- JavaScript `a || b` on strings: the empty string is falsy. -/
def jsOr (a b : String) : String := if a = "" then b else a

/-- Collapse every maximal run of whitespace to a single space
(the `replace(/\s+/g, ' ')` step); the boolean records whether the
previous character was part of a whitespace run. -/
def collapseWsGo : Bool → List Char → List Char
  | _, [] => []
  | prevWs, c :: t =>
    if c.isWhitespace then
      if prevWs then collapseWsGo true t else ' ' :: collapseWsGo true t
    else c :: collapseWsGo false t

/-- `replace(/[\\/]/g, '-')`: path separators become dashes. -/
def replaceSepChars (l : List Char) : List Char :=
  l.map fun c => if c = '/' ∨ c = '\\' then '-' else c

/-- The sanitization applied to a non-empty provided name in
`FileService.uploadFile`: collapse whitespace, then replace path separators. -/
def sanitizeChars (l : List Char) : List Char :=
  replaceSepChars (collapseWsGo false l)

/-- `String.prototype.trim`: drop leading and trailing whitespace. -/
def trimChars (l : List Char) : List Char :=
  ((l.dropWhile Char.isWhitespace).reverse.dropWhile Char.isWhitespace).reverse

/-- String-level trim. -/
def trimStr (s : String) : String := ⟨trimChars s.data⟩

/-- Head-of-list test used by the extension check. -/
def headIsDot : List Char → Bool
  | c :: _ => c = '.'
  | [] => false

/-- The test `/\.[A-Za-z0-9]{1,10}$/.test s`: the maximal trailing run of
ASCII alphanumerics has length 1..10 and is preceded by a dot. -/
def hasExtChars (l : List Char) : Bool :=
  let r := l.reverse
  let e := r.takeWhile Char.isAlphanum
  decide (1 ≤ e.length) && decide (e.length ≤ 10) && headIsDot (r.drop e.length)

/-- String-level recognized-extension test. -/
def hasExt (s : String) : Bool := hasExtChars s.data

/-- `s.startsWith p` of the JavaScript source. -/
def strStarts (s p : String) : Bool := List.isPrefixOf p.data s.data

/-- Is `needle` a contiguous sublist of `hay`? -/
def substr (needle : List Char) : List Char → Bool
  | [] => needle.isEmpty
  | c :: t => List.isPrefixOf needle (c :: t) || substr needle t

/-- Prisma `contains` with `mode: 'insensitive'`: case-insensitive substring. -/
def iContains (hay needle : String) : Bool :=
  substr (needle.data.map Char.toLower) (hay.data.map Char.toLower)

/-- Embedding of the `mime-types` library lookup `mime.extension` (an external
dependency of the service), restricted to the MIME types exercised here;
unknown types yield `none` exactly as the library does. -/
def mimeExtension (mt : String) : Option String :=
  if mt = "application/pdf" then some "pdf"
  else if mt = "image/png" then some "png"
  else if mt = "image/jpeg" then some "jpeg"
  else if mt = "text/plain" then some "txt"
  else if mt = "video/mp4" then some "mp4"
  else none

/-- Category classification of `FileService.uploadFile` (lines 54-58):
`image/*` → "image", `video/*` → "video", otherwise "files". -/
def mimeCategory (mt : String) : String :=
  if strStarts mt "image/" then "image"
  else if strStarts mt "video/" then "video"
  else "files"

/-- Final-name resolution of `FileService.uploadFile` (lines 61-70):
`providedName = (name || originalname || '').trim()`; when non-empty it is
sanitized, otherwise the raw `originalname` (or `file-{fileId}`) is used;
a mime-derived extension is appended when the base lacks a recognized one. -/
def resolveFinalName (name : Option String) (originalname fileId extension : String) :
    String :=
  let providedName := trimStr (jsOr (jsOr (name.getD "") originalname) "")
  let sanitizedBase :=
    if providedName ≠ "" then (⟨sanitizeChars providedName.data⟩ : String)
    else jsOr originalname ("file-" ++ fileId)
  if hasExt sanitizedBase then sanitizedBase
  else if extension ≠ "" then sanitizedBase ++ "." ++ extension
  else sanitizedBase

/-- `storageKey = userId + "/" + category + "/" + finalName` (line 72). -/
def storageKeyOf (userId mimetype finalName : String) : String :=
  userId ++ "/" ++ mimeCategory mimetype ++ "/" ++ finalName

/-- A typed, status-carrying error (`CustomError` of errorHandler.ts; a plain
`Error` reaches the boundary with status 500). -/
structure ErrE where
  message : String
  statusCode : Nat
deriving DecidableEq

/-- A row of the `File` table (prisma model), timestamps as naturals. -/
structure FileRec where
  id : String
  name : String
  originalName : String
  size : Nat
  mimeType : String
  storageKey : String
  previewKey : Option String
  tags : List String
  folder : Option String
  isDeleted : Bool
  deletedAt : Option Nat
  ownerId : String
  createdAt : Nat
deriving DecidableEq

/-- A row of the `Share` table (prisma model). -/
structure ShareRec where
  id : String
  token : String
  expiresAt : Nat
  isActive : Bool
  fileId : String
  createdById : String
  createdAt : Nat
deriving DecidableEq

/-- The relational store as seen by the two services. -/
structure DB where
  files : List FileRec
  shares : List ShareRec
deriving DecidableEq

/-- Insert keeping newest-first order (`orderBy: { createdAt: 'desc' }`). -/
def insertByCreated (f : FileRec) : List FileRec → List FileRec
  | [] => [f]
  | g :: t => if g.createdAt < f.createdAt then f :: g :: t else g :: insertByCreated f t

/-- Sort newest-first, the order of every `findMany` in the file service. -/
def sortNewest (l : List FileRec) : List FileRec := l.foldr insertByCreated []

/-- The reserved folder value marking "hidden from trash view". -/
def hiddenTrash : String := "__hidden_trash"

/-- The `where` clause of `FileService.listFiles` (lines 160-175): the
trash view excludes the hidden-trash sentinel via
`OR [folder = null, folder ≠ sentinel]` (Prisma `not` excludes nulls). -/
def listWhere (userId : String) (includeDeleted : Bool) (f : FileRec) : Bool :=
  f.ownerId == userId && f.isDeleted == includeDeleted &&
    (if includeDeleted then
      (f.folder == (none : Option String) ||
        (match f.folder with
          | some v => decide (v ≠ hiddenTrash)
          | none => false))
    else true)

/-- `FileService.listFiles`: filter then order by `createdAt` descending. -/
def listFiles (db : List FileRec) (userId : String) (includeDeleted : Bool) :
    List FileRec :=
  sortNewest (db.filter (listWhere userId includeDeleted))

/-- `FileService.deleteFile` (lines 282-309): soft delete.  Requires an
owned, currently non-deleted row; then updates the row with that id. -/
def deleteFile (db : List FileRec) (fileId userId : String) (now : Nat) :
    Except ErrE (List FileRec) :=
  match db.find? (fun f => f.id == fileId && f.ownerId == userId && !f.isDeleted) with
  | none => .error ⟨"File not found", 404⟩
  | some _ => .ok (db.map fun f =>
      if f.id == fileId then { f with isDeleted := true, deletedAt := some now } else f)

/-- `FileService.restoreFile` (lines 358-385): requires an owned,
soft-deleted row; then clears the flags on the row with that id. -/
def restoreFile (db : List FileRec) (fileId userId : String) :
    Except ErrE (List FileRec) :=
  match db.find? (fun f => f.id == fileId && f.ownerId == userId && f.isDeleted) with
  | none => .error ⟨"File not found in trash", 404⟩
  | some _ => .ok (db.map fun f =>
      if f.id == fileId then { f with isDeleted := false, deletedAt := none } else f)

/-- The row filter of `FileService.permanentlyDeleteFiles`:
owned by the caller, listed, and soft-deleted. -/
def purgeWhere (userId : String) (fileIds : List String) (f : FileRec) : Bool :=
  f.ownerId == userId && fileIds.contains f.id && f.isDeleted

/-- The storage keys best-effort deleted for a batch of fetched rows:
each row's `storageKey` and, when present, its `previewKey`. -/
def purgeKeys : List FileRec → List String
  | [] => []
  | f :: t =>
    f.storageKey :: ((match f.previewKey with | some k => [k] | none => []) ++ purgeKeys t)

/-- `FileService.permanentlyDeleteFiles` (lines 314-354): reject an empty id
list with 400; fetch the matching rows; delete their objects from storage
(errors swallowed, modelled as plain removal); delete the metadata rows that
match the same filter; return the number of rows removed. -/
def permanentlyDeleteFiles (db : List FileRec) (store : List String)
    (userId : String) (fileIds : List String) :
    Except ErrE (List FileRec × List String × Nat) :=
  if fileIds.isEmpty then .error ⟨"fileIds array is required", 400⟩
  else
    let files := db.filter (purgeWhere userId fileIds)
    let store2 := store.filter (fun k => !(purgeKeys files).contains k)
    let removed := db.filter (fun g =>
      g.ownerId == userId && (files.map (·.id)).contains g.id && g.isDeleted)
    let remaining := db.filter (fun g =>
      !(g.ownerId == userId && (files.map (·.id)).contains g.id && g.isDeleted))
    .ok (remaining, store2, removed.length)

/-- The parameters of `FileService.searchFiles`. -/
structure SearchParams where
  userId : String
  query : Option String
  type : Option String
  tags : Option (List String)
  folder : Option String
  page : Option Nat
  limit : Option Nat
deriving DecidableEq

/-- JavaScript truthiness of an optional string (`undefined` and `''` falsy). -/
def present : Option String → Bool
  | none => false
  | some s => decide (s ≠ "")

/-- The `where` clause built by `FileService.searchFiles` (lines 229-251):
owner and not-deleted always; when `query` is truthy, an `OR` of
case-insensitive name containment and exact tag membership; the remaining
filters are separate conjuncts. -/
def searchWhere (p : SearchParams) (f : FileRec) : Bool :=
  f.ownerId == p.userId && !f.isDeleted &&
    (match p.query with
      | some q => if q ≠ "" then (iContains f.originalName q || f.tags.contains q) else true
      | none => true) &&
    (match p.type with
      | some t => if t ≠ "" then strStarts f.mimeType t else true
      | none => true) &&
    (match p.tags with
      | some ts => if ts ≠ [] then ts.any (fun t => f.tags.contains t) else true
      | none => true) &&
    (match p.folder with
      | some fo => if fo ≠ "" then f.folder == some fo else true
      | none => true)

/-- `params.page || 1` (zero is falsy in JavaScript). -/
def pageOf (p : SearchParams) : Nat :=
  match p.page with | some n => if n = 0 then 1 else n | none => 1

/-- `params.limit || 20`. -/
def limitOf (p : SearchParams) : Nat :=
  match p.limit with | some n => if n = 0 then 20 else n | none => 20

/-- The result envelope of `FileService.searchFiles`. -/
structure SearchResult where
  files : List FileRec
  total : Nat
  page : Nat
  limit : Nat
  totalPages : Nat
deriving DecidableEq

/-- `FileService.searchFiles` (lines 216-277): offset pagination with
`skip = (page - 1) * limit` over the newest-first ordering, and a count
over the same `where` clause. -/
def searchFiles (db : List FileRec) (p : SearchParams) : SearchResult :=
  let page := pageOf p
  let limit := limitOf p
  let skip := (page - 1) * limit
  let total := (db.filter (searchWhere p)).length
  { files := ((sortNewest (db.filter (searchWhere p))).drop skip).take limit
    total := total
    page := page
    limit := limit
    totalPages := (total + limit - 1) / limit }

/-- `ShareService.getFileByToken` (part_001 lines 85-124): find an active,
unexpired share carrying the token, then its non-deleted file; each missing
step is a 404. -/
def getFileByToken (db : DB) (now : Nat) (token : String) :
    Except ErrE (FileRec × ShareRec) :=
  match db.shares.find? (fun s =>
      s.token == token && s.isActive && decide (now < s.expiresAt)) with
  | none => .error ⟨"Share link not found or expired", 404⟩
  | some s =>
    match db.files.find? (fun f => f.id == s.fileId && !f.isDeleted) with
    | none => .error ⟨"File not found or has been deleted", 404⟩
    | some f => .ok (f, s)

/-- `ShareService.deactivateShare` (part_001 lines 160-183): owner-scoped
lookup, then `isActive := false` on the row with that id. -/
def deactivateShare (db : DB) (shareId userId : String) : Except ErrE DB :=
  match db.shares.find? (fun s => s.id == shareId && s.createdById == userId) with
  | none => .error ⟨"Share not found", 404⟩
  | some _ => .ok { db with shares := db.shares.map fun s =>
      if s.id == shareId then { s with isActive := false } else s }

/-- Outcome of the object store's `headObject` call for a key: the object is
found, S3 answers `NotFound`, or the call fails with some other error. -/
inductive HeadOutcome
  | found
  | notFound
  | errored
deriving DecidableEq

/-- `StorageService.fileExists` (storage.ts lines 168-185): `true` when
found, `false` on S3 `NotFound`, and a thrown error otherwise. -/
def fileExists (h : HeadOutcome) : Except ErrE Bool :=
  match h with
  | .found => .ok true
  | .notFound => .ok false
  | .errored => .error ⟨"Failed to check if file exists", 500⟩

/-- Line 75 of fileService.ts: `fileExists(storageKey).catch(() => false)` —
an errored existence check is swallowed and read as "does not exist". -/
def existsOrFalse (h : HeadOutcome) : Bool :=
  match fileExists h with
  | .ok b => b
  | .error _ => false

/-- The environment of one upload call: the object store's responses, the
outcome of the sharp pipeline and of the preview put, the generated uuid,
the database row id, and the clock. -/
structure UploadEnv where
  headOutcome : String → HeadOutcome
  putOk : Bool
  previewGenOk : Bool
  previewPutOk : Bool
  fileId : String
  rowId : String
  now : Nat

/-- The argument record of `FileService.uploadFile`. -/
structure UploadData where
  originalname : String
  mimetype : String
  size : Nat
  name : Option String
  folder : Option String
  tags : List String
  userId : String
deriving DecidableEq

/-- Object store plus file table, the state an upload touches. -/
structure SysState where
  store : List String
  files : List FileRec
deriving DecidableEq

/-- Idempotent S3 put: a key already present is overwritten in place. -/
def putKey (k : String) (store : List String) : List String :=
  if store.contains k then store else k :: store

/-- `FileService.uploadFile` (lines 49-129).  Step order as in the source:
resolve the final name and storage key; existence check with errors
swallowed, conflict → 409; put the main object; `generatePreview` (image
only, generation errors swallowed to `null`); when a preview buffer exists,
`uploadPreview` — whose storage failure throws and propagates out of the
upload; finally persist the metadata row.  The state threads through so
effects performed before a failure remain visible. -/
def uploadFile (st : SysState) (env : UploadEnv) (d : UploadData) :
    SysState × Except ErrE FileRec :=
  let extension := (mimeExtension d.mimetype).getD ""
  let finalName := resolveFinalName d.name d.originalname env.fileId extension
  let storageKey := storageKeyOf d.userId d.mimetype finalName
  if existsOrFalse (env.headOutcome storageKey) then
    (st, .error ⟨"A file with this name already exists", 409⟩)
  else if !env.putOk then
    (st, .error ⟨"Failed to upload file to storage", 500⟩)
  else
    let st1 : SysState := { st with store := putKey storageKey st.store }
    let previewBuffer := strStarts d.mimetype "image/" && env.previewGenOk
    if previewBuffer then
      if env.previewPutOk then
        let previewKey := storageKey ++ "_preview.jpg"
        let st2 : SysState := { st1 with store := putKey previewKey st1.store }
        let row : FileRec :=
          { id := env.rowId, name := finalName, originalName := d.originalname
            size := d.size, mimeType := d.mimetype, storageKey := storageKey
            previewKey := some previewKey, tags := d.tags, folder := d.folder
            isDeleted := false, deletedAt := none, ownerId := d.userId
            createdAt := env.now }
        ({ st2 with files := row :: st2.files }, .ok row)
      else
        (st1, .error ⟨"Failed to upload preview", 500⟩)
    else
      let row : FileRec :=
        { id := env.rowId, name := finalName, originalName := d.originalname
          size := d.size, mimeType := d.mimetype, storageKey := storageKey
          previewKey := none, tags := d.tags, folder := d.folder
          isDeleted := false, deletedAt := none, ownerId := d.userId
          createdAt := env.now }
      ({ st1 with files := row :: st1.files }, .ok row)

/-! Concrete fixtures used by counterexamples and witnesses. -/

/-- A live PDF owned by user `u`, named so that `query = "work"` matches the
original name, tagged `important`. -/
def fxA : FileRec :=
  { id := "a", name := "n", originalName := "Work report", size := 1,
    mimeType := "application/pdf", storageKey := "u/files/a", previewKey := none,
    tags := ["important"], folder := none, isDeleted := false, deletedAt := none,
    ownerId := "u", createdAt := 2 }

/-- Matches the query only through its `work` tag, lacks `important`. -/
def fxB : FileRec :=
  { fxA with id := "b", originalName := "notes", tags := ["work"], createdAt := 1 }

/-- Matches through its `work` tag and carries `important`. -/
def fxC : FileRec :=
  { fxA with
    id := "c", originalName := "holiday", tags := ["work", "important"]
    createdAt := 3 }

/-- A soft-deleted file of user `u` with a preview object. -/
def fxTrash : FileRec :=
  { fxA with
    id := "t", storageKey := "u/files/t", previewKey := some "u/files/t_preview.jpg"
    isDeleted := true, deletedAt := some 4, createdAt := 0 }

/-- The search of the spec's AND/OR fixture: query `work`, tags `important`. -/
def fxQueryParams : SearchParams :=
  { userId := "u", query := some "work", type := none, tags := some ["important"],
    folder := none, page := none, limit := none }

/-- Page 1 of size 1 with no filters, for the pagination claim. -/
def fxPageParams : SearchParams :=
  { userId := "u", query := none, type := none, tags := none, folder := none,
    page := some 1, limit := some 1 }

/-- An active share of `fxA` with token `T`, expiring at time 100. -/
def fxShare : ShareRec :=
  { id := "s", token := "T", expiresAt := 100, isActive := true,
    fileId := "a", createdById := "u", createdAt := 1 }

/-- The database holding `fxA` and `fxShare`. -/
def fxDB : DB := { files := [fxA], shares := [fxShare] }

/-- A benign upload environment: key free, all storage calls succeed. -/
def fxEnv : UploadEnv :=
  { headOutcome := fun _ => .notFound, putOk := true, previewGenOk := true,
    previewPutOk := true, fileId := "X", rowId := "R", now := 5 }

/-- An image upload by user `u1`. -/
def fxImg : UploadData :=
  { originalname := "cat.png", mimetype := "image/png", size := 10, name := none,
    folder := none, tags := [], userId := "u1" }

/-- An upload with no desired name and an empty original name. -/
def fxNoName : UploadData :=
  { fxImg with originalname := "", mimetype := "application/pdf" }

/-- Modelled from the spec's wording of name resolution (used to compare the
implementation against the claim): prefer desiredName over originalName,
collapse whitespace, replace path separators with dashes, and append the
mime-derived extension only when the base lacks a recognized extension. -/
def claimFinalName (name : Option String) (originalname extension : String) : String :=
  let base := match name with | some n => if n = "" then originalname else n | none => originalname
  let s : String := ⟨sanitizeChars base.data⟩
  if hasExt s then s
  else if extension ≠ "" then s ++ "." ++ extension
  else s

/-- Follows the spec's words: a share is usable iff it carries the token, is
active, unexpired, and its referenced file exists and is not soft-deleted. -/
def specUsable (db : DB) (now : Nat) (token : String) : Prop :=
  ∃ s ∈ db.shares, s.token = token ∧ s.isActive = true ∧ now < s.expiresAt ∧
    ∃ f ∈ db.files, f.id = s.fileId ∧ f.isDeleted = false

/-! Helper lemmas about the embedding. -/

theorem jsOr_empty_right (s : String) : jsOr s "" = s := by
  unfold jsOr; split <;> simp_all

theorem mem_insertByCreated {a f : FileRec} {l : List FileRec} :
    a ∈ insertByCreated f l ↔ a = f ∨ a ∈ l := by
  induction l with
  | nil => simp [insertByCreated]
  | cons g t ih =>
    by_cases h : g.createdAt < f.createdAt
    · simp [insertByCreated, h, List.mem_cons]
    · simp [insertByCreated, h, List.mem_cons, ih]
      tauto

theorem length_insertByCreated (f : FileRec) (l : List FileRec) :
    (insertByCreated f l).length = l.length + 1 := by
  induction l with
  | nil => rfl
  | cons g t ih =>
    by_cases h : g.createdAt < f.createdAt <;> simp [insertByCreated, h, ih]

theorem mem_sortNewest {a : FileRec} {l : List FileRec} :
    a ∈ sortNewest l ↔ a ∈ l := by
  induction l with
  | nil => simp [sortNewest]
  | cons g t ih =>
    simp only [sortNewest, List.foldr_cons] at *
    rw [mem_insertByCreated, ih]
    simp [List.mem_cons]

theorem length_sortNewest (l : List FileRec) :
    (sortNewest l).length = l.length := by
  induction l with
  | nil => rfl
  | cons g t ih =>
    simp only [sortNewest, List.foldr_cons] at *
    rw [length_insertByCreated, ih]
    rfl

theorem length_filter_not_add {α : Type} (p : α → Bool) (l : List α) :
    (l.filter p).length + (l.filter (fun a => !p a)).length = l.length := by
  induction l with
  | nil => rfl
  | cons a t ih =>
    by_cases h : p a <;> simp [List.filter_cons, h] <;> omega

theorem headIsDot_true {l : List Char} (h : headIsDot l = true) : '.' ∈ l := by
  cases l with
  | nil => simp [headIsDot] at h
  | cons c t =>
    simp only [headIsDot, decide_eq_true_eq] at h
    simp [h]

theorem hasExtChars_of_not_mem {l : List Char} (h : '.' ∉ l) :
    hasExtChars l = false := by
  unfold hasExtChars
  rcases hd : headIsDot (l.reverse.drop (l.reverse.takeWhile Char.isAlphanum).length) with _ | _
  · simp [hd]
  · exfalso
    apply h
    have hm := headIsDot_true hd
    exact List.mem_reverse.mp (List.mem_of_mem_drop hm)

theorem mem_purgeKeys {k : String} {l : List FileRec} :
    k ∈ purgeKeys l ↔ ∃ f ∈ l, f.storageKey = k ∨ f.previewKey = some k := by
  induction l with
  | nil => simp [purgeKeys]
  | cons f t ih =>
    show k ∈ f.storageKey ::
        ((match f.previewKey with | some k => [k] | none => []) ++ purgeKeys t) ↔ _
    cases hp : f.previewKey with
    | none =>
      simp only [List.nil_append, List.mem_cons, ih]
      constructor
      · rintro (rfl | ⟨g, hg, hgk⟩)
        · exact ⟨f, by simp, Or.inl rfl⟩
        · exact ⟨g, by simp [hg], hgk⟩
      · rintro ⟨g, hg, hgk⟩
        rcases hg with rfl | hg'
        · rcases hgk with rfl | hpk
          · exact Or.inl rfl
          · rw [hp] at hpk; cases hpk
        · exact Or.inr ⟨g, hg', hgk⟩
    | some pk =>
      simp only [List.cons_append, List.nil_append, List.mem_cons, ih]
      constructor
      · rintro (rfl | rfl | ⟨g, hg, hgk⟩)
        · exact ⟨f, by simp, Or.inl rfl⟩
        · exact ⟨f, by simp, Or.inr (by simp [hp])⟩
        · exact ⟨g, by simp [hg], hgk⟩
      · rintro ⟨g, hg, hgk⟩
        rcases hg with rfl | hg'
        · rcases hgk with rfl | hpk
          · exact Or.inl rfl
          · rw [hp] at hpk
            injection hpk with h2
            exact Or.inr (Or.inl h2.symm)
        · exact Or.inr (Or.inr ⟨g, hg', hgk⟩)

theorem mem_putKey_self (k : String) (s : List String) : k ∈ putKey k s := by
  unfold putKey
  split
  · next h => exact List.elem_iff.mp h
  · exact List.mem_cons_self ..

theorem mem_putKey_mono {k : String} {s : List String} (h : k ∈ s) (k' : String) :
    k ∈ putKey k' s := by
  unfold putKey
  split
  · exact h
  · exact List.mem_cons_of_mem _ h

theorem resolveFinalName_empty (fileId ext : String) (hdot : '.' ∉ fileId.data) :
    resolveFinalName none "" fileId ext =
      if ext = "" then "file-" ++ fileId else "file-" ++ fileId ++ "." ++ ext := by
  have hbase : '.' ∉ ("file-" ++ fileId).data := by
    rw [String.data_append]
    intro hm
    rcases List.mem_append.mp hm with h1 | h2
    · exact absurd h1 (by decide)
    · exact hdot h2
  have hext : hasExt ("file-" ++ fileId) = false := hasExtChars_of_not_mem hbase
  have hpn : trimStr (jsOr (jsOr ((none : Option String).getD "") "") "") = "" := rfl
  have hbs : jsOr "" ("file-" ++ fileId) = "file-" ++ fileId := rfl
  simp only [resolveFinalName, hpn, hbs, ne_eq, not_true_eq_false, if_false,
    reduceIte, hext, Bool.false_eq_true]
  by_cases he : ext = "" <;> simp [he]

/-! Claim theorems. -/

/-- C1 (counterexample): the claim that a preview failure is never
propagated is false — when the preview is generated but storing it fails,
`uploadFile` returns the error (and the main object is already written). -/
theorem uploadPreviewFailure_propagates_cex :
    strStarts fxImg.mimetype "image/" = true ∧
    (uploadFile ⟨[], []⟩ { fxEnv with previewPutOk := false } fxImg).2
      = .error ⟨"Failed to upload preview", 500⟩ ∧
    (uploadFile ⟨[], []⟩ { fxEnv with previewPutOk := false } fxImg).1.store
      = ["u1/image/cat.png"] := by decide

/-- C1 (amended): for an image upload with a free key and a successful main
put, a preview generation failure is non-fatal (upload succeeds without
previewKey); a successful generate-and-store yields
previewKey `{storageKey}_preview.jpg`; but a failure storing the generated
preview propagates the error and fails the upload (after the main object
was written, with no metadata row persisted). -/
theorem uploadFile_preview_behavior (st : SysState) (env : UploadEnv) (d : UploadData)
    (him : strStarts d.mimetype "image/" = true)
    (hfree : env.headOutcome (storageKeyOf d.userId d.mimetype
      (resolveFinalName d.name d.originalname env.fileId
        ((mimeExtension d.mimetype).getD ""))) = .notFound)
    (hput : env.putOk = true) :
    (env.previewGenOk = false →
      ∃ st' row, uploadFile st env d = (st', .ok row) ∧ row.previewKey = none) ∧
    (env.previewGenOk = true → env.previewPutOk = true →
      ∃ st' row, uploadFile st env d = (st', .ok row) ∧
        row.previewKey = some (row.storageKey ++ "_preview.jpg")) ∧
    (env.previewGenOk = true → env.previewPutOk = false →
      ∃ st', uploadFile st env d = (st', .error ⟨"Failed to upload preview", 500⟩) ∧
        st'.files = st.files ∧
        storageKeyOf d.userId d.mimetype
          (resolveFinalName d.name d.originalname env.fileId
            ((mimeExtension d.mimetype).getD "")) ∈ st'.store) := by
  refine ⟨?_, ?_, ?_⟩
  · intro hgen
    simp only [uploadFile, hfree, existsOrFalse, fileExists, hput, him, hgen]
    norm_num
    exact ⟨_, _, ⟨rfl, rfl⟩, rfl⟩
  · intro hgen hpp
    simp only [uploadFile, hfree, existsOrFalse, fileExists, hput, him, hgen, hpp]
    norm_num
    exact ⟨_, _, ⟨rfl, rfl⟩, rfl⟩
  · intro hgen hpp
    simp only [uploadFile, hfree, existsOrFalse, fileExists, hput, him, hgen, hpp]
    norm_num
    exact mem_putKey_self _ _

/-- C1 (witness): a generation failure still yields a successful upload
without a preview key. -/
theorem uploadFile_preview_behavior_witness :
    ∃ st' row, uploadFile ⟨[], []⟩ { fxEnv with previewGenOk := false } fxImg
      = (st', .ok row) ∧ row.previewKey = none :=
  (uploadFile_preview_behavior ⟨[], []⟩ { fxEnv with previewGenOk := false } fxImg
    (by decide) rfl rfl).1 rfl

/-- C2: resolving a share token succeeds exactly when some share carries the
token, is active and unexpired, and its file exists and is not soft-deleted;
every failure is reported with status 404; and after an owner deactivates a
share, resolving its token reports 404 even before expiry. -/
theorem getFileByToken_resolution (db : DB) (now : Nat) (tok : String)
    (huniq : ∀ s1 ∈ db.shares, ∀ s2 ∈ db.shares, s1.token = s2.token → s1 = s2) :
    ((∃ r, getFileByToken db now tok = .ok r) ↔ specUsable db now tok) ∧
    (¬ specUsable db now tok →
      ∃ e, getFileByToken db now tok = .error e ∧ e.statusCode = 404) ∧
    (∀ shareId uid db2 s, deactivateShare db shareId uid = .ok db2 →
      s ∈ db.shares → s.id = shareId →
      ∃ e, getFileByToken db2 now s.token = .error e ∧ e.statusCode = 404) := by
  have fwd : ∀ tok2 (db' : DB), (∃ r, getFileByToken db' now tok2 = .ok r) →
      specUsable db' now tok2 := by
    intro tok2 db'
    rintro ⟨r, hr⟩
    unfold getFileByToken at hr
    rcases hs : db'.shares.find?
        (fun s => s.token == tok2 && s.isActive && decide (now < s.expiresAt)) with _ | s
    · simp only [hs] at hr
      cases hr
    · simp only [hs] at hr
      rcases hf : db'.files.find? (fun f => f.id == s.fileId && !f.isDeleted) with _ | f
      · simp only [hf] at hr
        cases hr
      · have hsp := List.find?_some hs
        have hsm := List.mem_of_find?_eq_some hs
        have hfp := List.find?_some hf
        have hfm := List.mem_of_find?_eq_some hf
        simp only [Bool.and_eq_true, beq_iff_eq, decide_eq_true_eq,
          Bool.not_eq_true'] at hsp hfp
        exact ⟨s, hsm, hsp.1.1, hsp.1.2, hsp.2, f, hfm, hfp.1, hfp.2⟩
  have errShape : ∀ tok2 (db' : DB),
      (∃ r, getFileByToken db' now tok2 = .ok r) ∨
      ∃ e, getFileByToken db' now tok2 = .error e ∧ e.statusCode = 404 := by
    intro tok2 db'
    unfold getFileByToken
    rcases hs : db'.shares.find?
        (fun s => s.token == tok2 && s.isActive && decide (now < s.expiresAt)) with _ | s
    · simp only [hs]
      exact Or.inr ⟨_, rfl, rfl⟩
    · rcases hf : db'.files.find? (fun f => f.id == s.fileId && !f.isDeleted) with _ | f
      · simp only [hs, hf]
        exact Or.inr ⟨_, rfl, rfl⟩
      · simp only [hs, hf]
        exact Or.inl ⟨_, rfl⟩
  refine ⟨⟨fwd tok db, ?_⟩, ?_, ?_⟩
  · rintro ⟨s, hsm, htok, hact, hexp, f, hfm, hfid, hdel⟩
    have hsome : (db.shares.find?
        (fun s => s.token == tok && s.isActive && decide (now < s.expiresAt))).isSome := by
      rw [List.find?_isSome]
      exact ⟨s, hsm, by simp [htok, hact, hexp]⟩
    rcases hs : db.shares.find?
        (fun s => s.token == tok && s.isActive && decide (now < s.expiresAt)) with _ | s2
    · rw [hs] at hsome; cases hsome
    · have hs2p := List.find?_some hs
      have hs2m := List.mem_of_find?_eq_some hs
      simp only [Bool.and_eq_true, beq_iff_eq, decide_eq_true_eq] at hs2p
      have hss : s2 = s := huniq s2 hs2m s hsm (hs2p.1.1.trans htok.symm)
      subst hss
      have hfsome : (db.files.find? (fun f => f.id == s2.fileId && !f.isDeleted)).isSome := by
        rw [List.find?_isSome]
        exact ⟨f, hfm, by simp [hfid, hdel]⟩
      rcases hf : db.files.find? (fun f => f.id == s2.fileId && !f.isDeleted) with _ | f2
      · rw [hf] at hfsome; cases hfsome
      · refine ⟨(f2, s2), ?_⟩
        unfold getFileByToken
        simp only [hs, hf]
  · intro hnot
    rcases errShape tok db with hok | herr
    · exact absurd (fwd tok db hok) hnot
    · exact herr
  · intro shareId uid db2 s hde hsm hsid
    unfold deactivateShare at hde
    rcases hd : db.shares.find? (fun s => s.id == shareId && s.createdById == uid) with _ | s0
    · rw [hd] at hde; cases hde
    · rw [hd] at hde
      injection hde with hde2
      subst hde2
      have hnone : (List.map (fun s => if s.id == shareId then { s with isActive := false } else s)
          db.shares).find?
          (fun s2 => s2.token == s.token && s2.isActive && decide (now < s2.expiresAt)) = none := by
        rw [List.find?_eq_none]
        intro x hx
        rcases List.mem_map.mp hx with ⟨s1, hs1m, hs1e⟩
        by_cases hid : s1.id == shareId
        · rw [if_pos hid] at hs1e
          subst hs1e
          simp
        · rw [if_neg hid] at hs1e
          subst hs1e
          intro hcontra
          simp only [Bool.and_eq_true, beq_iff_eq, decide_eq_true_eq] at hcontra
          have hs1s : s1 = s := huniq s1 hs1m s hsm hcontra.1.1
          subst hs1s
          rw [hsid] at hid
          simp at hid
      refine ⟨⟨"Share link not found or expired", 404⟩, ?_, rfl⟩
      unfold getFileByToken
      simp only [hnone]

/-- C2 (witness): the live fixture share resolves successfully. -/
theorem getFileByToken_resolution_witness :
    ∃ r, getFileByToken fxDB 50 "T" = .ok r :=
  ((getFileByToken_resolution fxDB 50 "T" (by decide)).1).mpr
    (by unfold specUsable; decide)

/-- C3 (counterexample): the skip is not `page * pageSize` — on page 1 of
size 1 over two matching files the service returns the newest file, while a
`page * pageSize` skip would return the older one. -/
theorem searchFiles_skip_cex :
    (searchFiles [fxA, fxB] fxPageParams).files = [fxA] ∧
    ((sortNewest ([fxA, fxB].filter (searchWhere fxPageParams))).drop
        (pageOf fxPageParams * limitOf fxPageParams)).take (limitOf fxPageParams) = [fxB] ∧
    (searchFiles [fxA, fxB] fxPageParams).files ≠
      ((sortNewest ([fxA, fxB].filter (searchWhere fxPageParams))).drop
        (pageOf fxPageParams * limitOf fxPageParams)).take (limitOf fxPageParams) := by
  decide

/-- C3 (amended): pagination is offset-based with a skip of
`(page - 1) * pageSize` records before taking `pageSize` results, and the
returned total is computed with exactly the same filter predicate as the
returned page, so it counts precisely the matching rows. -/
theorem searchFiles_pagination (db : List FileRec) (p : SearchParams) :
    (searchFiles db p).files =
      ((sortNewest (db.filter (searchWhere p))).drop ((pageOf p - 1) * limitOf p)).take
        (limitOf p) ∧
    (searchFiles db p).total = (db.filter (searchWhere p)).length ∧
    (sortNewest (db.filter (searchWhere p))).length = (searchFiles db p).total ∧
    (∀ f ∈ (searchFiles db p).files, searchWhere p f = true) := by
  refine ⟨rfl, rfl, length_sortNewest _, ?_⟩
  intro f hf
  have h1 := List.mem_of_mem_take hf
  have h2 := List.mem_of_mem_drop h1
  have h3 := mem_sortNewest.mp h2
  exact (List.mem_filter.mp h3).2

/-- C3 (witness): the amended skip formula evaluated on the fixture. -/
theorem searchFiles_pagination_witness :
    (searchFiles [fxA, fxB] fxPageParams).files =
      ((sortNewest ([fxA, fxB].filter (searchWhere fxPageParams))).drop
        ((pageOf fxPageParams - 1) * limitOf fxPageParams)).take (limitOf fxPageParams) :=
  (searchFiles_pagination [fxA, fxB] fxPageParams).1

/-- C4 (counterexample): the claimed resolution pipeline (collapse
whitespace, replace separators, append extension) disagrees with the code on
a whitespace-only originalName — the code skips sanitization entirely and
yields a name with uncollapsed whitespace. -/
theorem finalName_whitespace_cex :
    resolveFinalName none "  " "X" "pdf" = "  .pdf" ∧
    claimFinalName none "  " "pdf" = " .pdf" ∧
    resolveFinalName none "  " "X" "pdf" ≠ claimFinalName none "  " "pdf" := by decide

/-- C4 (amended): whenever the preferred name (desiredName, else
originalName) is non-empty after trimming, the final name is exactly the
claimed pipeline applied to the trimmed preferred name (collapse whitespace,
replace path separators with `-`, append a mime-derived extension only when
the base lacks a recognized extension); and the concrete scenario holds:
`report.PDF` with mimeType application/pdf keeps its name and case and maps
to storage key `u1/files/report.PDF`. -/
theorem finalName_resolution (name : Option String) (orig fileId ext : String)
    (h : trimStr (jsOr (name.getD "") orig) ≠ "") :
    resolveFinalName name orig fileId ext =
      claimFinalName none (trimStr (jsOr (name.getD "") orig)) ext ∧
    resolveFinalName none "report.PDF" fileId "pdf" = "report.PDF" ∧
    mimeExtension "application/pdf" = some "pdf" ∧
    storageKeyOf "u1" "application/pdf" "report.PDF" = "u1/files/report.PDF" := by
  refine ⟨?_, by rfl, by rfl, by rfl⟩
  have e1 : jsOr (jsOr (name.getD "") orig) "" = jsOr (name.getD "") orig :=
    jsOr_empty_right _
  simp only [resolveFinalName, claimFinalName, e1, h, if_true, ite_not, if_neg h]
  rfl

/-- C4 (witness): a name with spaces and a slash is trimmed, collapsed and
separator-replaced exactly as the claimed pipeline prescribes. -/
theorem finalName_resolution_witness :
    resolveFinalName (some " my  doc/v1") "orig.bin" "X" "pdf" =
      claimFinalName none (trimStr (jsOr ((some " my  doc/v1").getD "") "orig.bin")) "pdf" :=
  (finalName_resolution (some " my  doc/v1") "orig.bin" "X" "pdf" (by decide)).1

/-- C5: with a non-empty query, a file matches the search `where` clause iff
it is the owner's non-deleted file AND (its originalName contains the query
case-insensitively OR some tag equals the query exactly) AND every other
active filter holds (mimeType prefix, at least one requested tag, folder);
and every returned page member satisfies the clause. -/
theorem searchWhere_query_rule (p : SearchParams) (q : String)
    (hq : p.query = some q) (hne : q ≠ "") :
    (∀ f, searchWhere p f = true ↔
      (f.ownerId = p.userId ∧ f.isDeleted = false ∧
        (iContains f.originalName q = true ∨ q ∈ f.tags) ∧
        (∀ t, p.type = some t → t ≠ "" → strStarts f.mimeType t = true) ∧
        (∀ ts, p.tags = some ts → ts ≠ [] → ∃ t ∈ ts, t ∈ f.tags) ∧
        (∀ fo, p.folder = some fo → fo ≠ "" → f.folder = some fo))) ∧
    (∀ db, ∀ f ∈ (searchFiles db p).files, searchWhere p f = true) := by
  constructor
  · intro f
    unfold searchWhere
    rw [hq]
    cases htype : p.type with
    | none => cases htags : p.tags with
      | none => cases hfold : p.folder with
        | none =>
          simp [hne, Bool.and_eq_true, List.elem_iff, List.any_eq_true,
            Bool.not_eq_true', and_assoc]
        | some fo =>
          by_cases hfo : fo = "" <;>
            simp [hne, hfo, Bool.and_eq_true, List.elem_iff, List.any_eq_true,
              Bool.not_eq_true', and_assoc]
      | some ts => cases hfold : p.folder with
        | none =>
          by_cases hts : ts = [] <;>
            simp [hne, hts, Bool.and_eq_true, List.elem_iff, List.any_eq_true,
              Bool.not_eq_true', and_assoc]
        | some fo =>
          by_cases hts : ts = [] <;> by_cases hfo : fo = "" <;>
            simp [hne, hts, hfo, Bool.and_eq_true, List.elem_iff, List.any_eq_true,
              Bool.not_eq_true', and_assoc]
    | some t => cases htags : p.tags with
      | none => cases hfold : p.folder with
        | none =>
          by_cases ht : t = "" <;>
            simp [hne, ht, Bool.and_eq_true, List.elem_iff, List.any_eq_true,
              Bool.not_eq_true', and_assoc]
        | some fo =>
          by_cases ht : t = "" <;> by_cases hfo : fo = "" <;>
            simp [hne, ht, hfo, Bool.and_eq_true, List.elem_iff, List.any_eq_true,
              Bool.not_eq_true', and_assoc]
      | some ts => cases hfold : p.folder with
        | none =>
          by_cases ht : t = "" <;> by_cases hts : ts = [] <;>
            simp [hne, ht, hts, Bool.and_eq_true, List.elem_iff, List.any_eq_true,
              Bool.not_eq_true', and_assoc]
        | some fo =>
          by_cases ht : t = "" <;> by_cases hts : ts = [] <;> by_cases hfo : fo = "" <;>
            simp [hne, ht, hts, hfo, Bool.and_eq_true, List.elem_iff, List.any_eq_true,
              Bool.not_eq_true', and_assoc]
  · intro db f hf
    have h1 := List.mem_of_mem_take hf
    have h2 := List.mem_of_mem_drop h1
    have h3 := mem_sortNewest.mp h2
    exact (List.mem_filter.mp h3).2

/-- C5 (witness): the fixture file matching through its `work` tag and
carrying `important` satisfies the search clause for
query `work`, tags `important`. -/
theorem searchWhere_query_rule_witness :
    searchWhere fxQueryParams fxC = true := by
  apply ((searchWhere_query_rule fxQueryParams "work" rfl (by decide)).1 fxC).mpr
  refine ⟨by decide, by decide, Or.inr (by decide), ?_, ?_, ?_⟩
  · intro t ht
    simp [fxQueryParams] at ht
  · intro ts hts _
    have h2 : ts = ["important"] := by
      simp [fxQueryParams] at hts
      exact hts.symm
    subst h2
    exact ⟨"important", by decide, by decide⟩
  · intro fo hfo
    simp [fxQueryParams] at hfo

/-- C6: a non-empty purge removes metadata rows exactly for the caller's
listed, soft-deleted files; the count equals the rows removed; every
non-deleted file stays untouched (row kept, and only keys of matched
soft-deleted files leave the object store). -/
theorem permanentlyDeleteFiles_frame (db : List FileRec) (store : List String)
    (uid : String) (ids : List String) (h : ids ≠ []) :
    ∃ db2 store2 n, permanentlyDeleteFiles db store uid ids = .ok (db2, store2, n) ∧
      (∀ f, f ∈ db2 ↔ f ∈ db ∧ ¬(f.ownerId = uid ∧ f.id ∈ ids ∧ f.isDeleted = true)) ∧
      n = (db.filter (purgeWhere uid ids)).length ∧
      n + db2.length = db.length ∧
      (∀ f ∈ db, f.isDeleted = false → f ∈ db2) ∧
      (∀ k ∈ store, k ∉ store2 →
        ∃ f ∈ db, (f.ownerId = uid ∧ f.id ∈ ids ∧ f.isDeleted = true) ∧
          (f.storageKey = k ∨ f.previewKey = some k)) := by
  have hne : ids.isEmpty = false := by
    cases ids with
    | nil => exact absurd rfl h
    | cons a t => rfl
  have toProp : ∀ g, purgeWhere uid ids g = true ↔
      (g.ownerId = uid ∧ g.id ∈ ids ∧ g.isDeleted = true) := by
    intro g
    simp [purgeWhere, Bool.and_eq_true, List.elem_iff, and_assoc]
  have hpred : ∀ g ∈ db,
      (g.ownerId == uid && ((db.filter (purgeWhere uid ids)).map (·.id)).contains g.id
        && g.isDeleted) = true ↔ purgeWhere uid ids g = true := by
    intro g hg
    constructor
    · intro hb
      simp only [Bool.and_eq_true, beq_iff_eq] at hb
      obtain ⟨⟨hown, hidmem⟩, hdel⟩ := hb
      have hmm : g.id ∈ (db.filter (purgeWhere uid ids)).map (·.id) := by
        simpa [List.elem_iff] using hidmem
      rcases List.mem_map.mp hmm with ⟨g0, hg0, hgid⟩
      have hg0p := (toProp g0).mp (List.mem_filter.mp hg0).2
      rw [toProp]
      exact ⟨hown, hgid ▸ hg0p.2.1, hdel⟩
    · intro hp
      have hp2 := (toProp g).mp hp
      have hmem : g ∈ db.filter (purgeWhere uid ids) := List.mem_filter.mpr ⟨hg, hp⟩
      have hmm : g.id ∈ (db.filter (purgeWhere uid ids)).map (·.id) :=
        List.mem_map_of_mem _ hmem
      simp [Bool.and_eq_true, hp2.1, hp2.2.2, List.elem_iff, hmm]
  have beqPred : ∀ x ∈ db,
      (x.ownerId == uid && ((db.filter (purgeWhere uid ids)).map (·.id)).contains x.id
        && x.isDeleted) = purgeWhere uid ids x := by
    intro x hx
    have hiff := hpred x hx
    by_cases hb : (x.ownerId == uid &&
        ((db.filter (purgeWhere uid ids)).map (·.id)).contains x.id && x.isDeleted) = true
    · rw [hb, hiff.mp hb]
    · have h1 := Bool.eq_false_iff.mpr hb
      have h2 : purgeWhere uid ids x = false := by
        by_cases hc : purgeWhere uid ids x = true
        · exact absurd (hiff.mpr hc) hb
        · exact Bool.eq_false_iff.mpr hc
      rw [h1, h2]
  simp only [permanentlyDeleteFiles, hne, Bool.false_eq_true, if_false]
  refine ⟨_, _, _, rfl, ?_, ?_, ?_, ?_, ?_⟩
  · intro f
    constructor
    · intro hmem
      have hmem2 := List.mem_filter.mp hmem
      refine ⟨hmem2.1, ?_⟩
      intro hprop
      have hb := (hpred f hmem2.1).mpr ((toProp f).mpr hprop)
      have hneg := hmem2.2
      rw [hb] at hneg
      simp at hneg
    · rintro ⟨hfdb, hnp⟩
      refine List.mem_filter.mpr ⟨hfdb, ?_⟩
      by_cases hb : (f.ownerId == uid &&
          ((db.filter (purgeWhere uid ids)).map (·.id)).contains f.id && f.isDeleted) = true
      · exact absurd ((toProp f).mp ((hpred f hfdb).mp hb)) hnp
      · rw [Bool.eq_false_iff.mpr hb]
        rfl
  · exact (congrArg List.length (List.filter_congr beqPred)).symm ▸ rfl
  · exact length_filter_not_add _ db
  · intro f hf hdel
    refine List.mem_filter.mpr ⟨hf, ?_⟩
    simp [hdel]
  · intro k hk hk2
    by_cases hc : (purgeKeys (db.filter (purgeWhere uid ids))).contains k = true
    · have hmemk : k ∈ purgeKeys (db.filter (purgeWhere uid ids)) := by
        simpa [List.elem_iff] using hc
      rcases mem_purgeKeys.mp hmemk with ⟨f, hfm, hfk⟩
      have hfdb := (List.mem_filter.mp hfm).1
      have hfp := (toProp f).mp (List.mem_filter.mp hfm).2
      exact ⟨f, hfdb, hfp, hfk⟩
    · exfalso
      apply hk2
      refine List.mem_filter.mpr ⟨hk, ?_⟩
      rw [Bool.eq_false_iff.mpr hc]
      rfl

/-- C6 (witness): purging a list containing only a non-deleted file is a
no-op with count 0, and the frame theorem instantiates on that input. -/
theorem permanentlyDeleteFiles_frame_witness :
    permanentlyDeleteFiles [fxA] ["u/files/a"] "u" ["a"]
        = .ok ([fxA], ["u/files/a"], 0) ∧
    (∃ db2 store2 n,
      permanentlyDeleteFiles [fxA] ["u/files/a"] "u" ["a"] = .ok (db2, store2, n) ∧
      (∀ f, f ∈ db2 ↔ f ∈ [fxA] ∧ ¬(f.ownerId = "u" ∧ f.id ∈ ["a"] ∧ f.isDeleted = true)) ∧
      n = ([fxA].filter (purgeWhere "u" ["a"])).length ∧
      n + db2.length = [fxA].length ∧
      (∀ f ∈ [fxA], f.isDeleted = false → f ∈ db2) ∧
      (∀ k ∈ ["u/files/a"], k ∉ store2 →
        ∃ f ∈ [fxA], (f.ownerId = "u" ∧ f.id ∈ ["a"] ∧ f.isDeleted = true) ∧
          (f.storageKey = k ∨ f.previewKey = some k))) :=
  ⟨by decide, permanentlyDeleteFiles_frame [fxA] ["u/files/a"] "u" ["a"] (by decide)⟩

/-- C7: SoftDelete requires an owned, currently non-deleted file (otherwise
404), Restore requires an owned soft-deleted file (otherwise 404), and
SoftDelete followed by Restore is a round trip: the file ends with
isDeleted = false and deletedAt = null and appears again in the owner's
non-deleted listing. -/
theorem softDelete_restore_roundtrip :
    (∀ (db : List FileRec) (fid uid : String) (now : Nat),
      (¬ ∃ f ∈ db, f.id = fid ∧ f.ownerId = uid ∧ f.isDeleted = false) →
      deleteFile db fid uid now = .error ⟨"File not found", 404⟩) ∧
    (∀ (db : List FileRec) (fid uid : String),
      (¬ ∃ f ∈ db, f.id = fid ∧ f.ownerId = uid ∧ f.isDeleted = true) →
      restoreFile db fid uid = .error ⟨"File not found in trash", 404⟩) ∧
    (∀ (db : List FileRec) (fid uid : String) (now : Nat) (f : FileRec),
      f ∈ db → f.id = fid → f.ownerId = uid → f.isDeleted = false →
      ∃ db1 db2, deleteFile db fid uid now = .ok db1 ∧
        restoreFile db1 fid uid = .ok db2 ∧
        ∃ g ∈ listFiles db2 uid false, g.id = fid ∧ g.isDeleted = false ∧
          g.deletedAt = none) := by
  refine ⟨?_, ?_, ?_⟩
  · intro db fid uid now hnone
    unfold deleteFile
    rcases hf : db.find? (fun f => f.id == fid && f.ownerId == uid && !f.isDeleted) with _ | f
    · simp only [hf]
    · exfalso
      apply hnone
      have hp := List.find?_some hf
      have hm := List.mem_of_find?_eq_some hf
      simp only [Bool.and_eq_true, beq_iff_eq, Bool.not_eq_true'] at hp
      exact ⟨f, hm, hp.1.1, hp.1.2, hp.2⟩
  · intro db fid uid hnone
    unfold restoreFile
    rcases hf : db.find? (fun f => f.id == fid && f.ownerId == uid && f.isDeleted) with _ | f
    · simp only [hf]
    · exfalso
      apply hnone
      have hp := List.find?_some hf
      have hm := List.mem_of_find?_eq_some hf
      simp only [Bool.and_eq_true, beq_iff_eq] at hp
      exact ⟨f, hm, hp.1.1, hp.1.2, hp.2⟩
  · intro db fid uid now f hf hid hown hdel
    have hfind : (db.find?
        (fun f => f.id == fid && f.ownerId == uid && !f.isDeleted)).isSome := by
      rw [List.find?_isSome]
      exact ⟨f, hf, by simp [hid, hown, hdel]⟩
    rcases hf1 : db.find? (fun f => f.id == fid && f.ownerId == uid && !f.isDeleted) with _ | f0
    · rw [hf1] at hfind; cases hfind
    · have hg1 : (if f.id == fid then
            { f with isDeleted := true, deletedAt := some now } else f) ∈
          db.map (fun g => if g.id == fid then
            { g with isDeleted := true, deletedAt := some now } else g) :=
        List.mem_map_of_mem _ hf
      have hg1v : (if f.id == fid then
            { f with isDeleted := true, deletedAt := some now } else f) =
          { f with isDeleted := true, deletedAt := some now } := by
        simp [hid]
      rw [hg1v] at hg1
      have hfind2 : ((db.map (fun g => if g.id == fid then
            { g with isDeleted := true, deletedAt := some now } else g)).find?
          (fun g => g.id == fid && g.ownerId == uid && g.isDeleted)).isSome := by
        rw [List.find?_isSome]
        exact ⟨_, hg1, by simp [hid, hown]⟩
      rcases hf2 : ((db.map (fun g => if g.id == fid then
            { g with isDeleted := true, deletedAt := some now } else g)).find?
          (fun g => g.id == fid && g.ownerId == uid && g.isDeleted)) with _ | g0
      · rw [hf2] at hfind2; cases hfind2
      · refine ⟨db.map (fun g => if g.id == fid then
            { g with isDeleted := true, deletedAt := some now } else g),
          (db.map (fun g => if g.id == fid then
            { g with isDeleted := true, deletedAt := some now } else g)).map
              (fun g => if g.id == fid then
                { g with isDeleted := false, deletedAt := none } else g),
          ?_, ?_, ?_⟩
        · unfold deleteFile
          simp only [hf1]
        · unfold restoreFile
          simp only [hf2]
        · have hg2 : (if ({ f with isDeleted := true, deletedAt := some now } : FileRec).id == fid then
              { ({ f with isDeleted := true, deletedAt := some now } : FileRec) with
                isDeleted := false, deletedAt := none }
              else { f with isDeleted := true, deletedAt := some now }) ∈
              (db.map (fun g => if g.id == fid then
                { g with isDeleted := true, deletedAt := some now } else g)).map
                (fun g => if g.id == fid then
                  { g with isDeleted := false, deletedAt := none } else g) :=
            List.mem_map_of_mem _ hg1
          have hgv : (if ({ f with isDeleted := true, deletedAt := some now } : FileRec).id == fid then
              { ({ f with isDeleted := true, deletedAt := some now } : FileRec) with
                isDeleted := false, deletedAt := none }
              else { f with isDeleted := true, deletedAt := some now }) =
              { f with isDeleted := false, deletedAt := none } := by
            simp [hid]
          rw [hgv] at hg2
          refine ⟨{ f with isDeleted := false, deletedAt := none }, ?_, by simp [hid], rfl, rfl⟩
          unfold listFiles
          rw [mem_sortNewest]
          refine List.mem_filter.mpr ⟨hg2, ?_⟩
          simp [listWhere, hown]

/-- C7 (witness): the round trip evaluated on the fixture file. -/
theorem softDelete_restore_roundtrip_witness :
    ∃ db1 db2, deleteFile [fxA] "a" "u" 9 = .ok db1 ∧
      restoreFile db1 "a" "u" = .ok db2 ∧
      ∃ g ∈ listFiles db2 "u" false, g.id = "a" ∧ g.isDeleted = false ∧
        g.deletedAt = none :=
  softDelete_restore_roundtrip.2.2 [fxA] "a" "u" 9 fxA (by decide) (by decide)
    (by decide) (by decide)

/-- C8: when the object store reports an object already present at the
computed storage key, the upload fails with 409 and the state is returned
unchanged — no bytes are written and no metadata row is persisted. -/
theorem uploadFile_conflict_409 (st : SysState) (env : UploadEnv) (d : UploadData)
    (h : env.headOutcome (storageKeyOf d.userId d.mimetype
      (resolveFinalName d.name d.originalname env.fileId
        ((mimeExtension d.mimetype).getD ""))) = .found) :
    uploadFile st env d = (st, .error ⟨"A file with this name already exists", 409⟩) := by
  simp only [uploadFile, h, existsOrFalse, fileExists]
  rfl

/-- C8 (witness): the conflict branch evaluated on the image fixture. -/
theorem uploadFile_conflict_409_witness :
    uploadFile ⟨[], []⟩ { fxEnv with headOutcome := fun _ => .found } fxImg
      = (⟨[], []⟩, .error ⟨"A file with this name already exists", 409⟩) :=
  uploadFile_conflict_409 ⟨[], []⟩ { fxEnv with headOutcome := fun _ => .found } fxImg rfl

/-- C9: when the existence check errors, the error is swallowed and read as
"key is free": no Conflict can be raised (every failure is a 500), and with
the remaining calls succeeding the upload proceeds and writes at the key —
even when an object is already there. -/
theorem uploadFile_existsError_swallowed (st : SysState) (env : UploadEnv) (d : UploadData)
    (h : env.headOutcome (storageKeyOf d.userId d.mimetype
      (resolveFinalName d.name d.originalname env.fileId
        ((mimeExtension d.mimetype).getD ""))) = .errored) :
    (∀ e, (uploadFile st env d).2 = .error e → e.statusCode = 500) ∧
    (env.putOk = true →
      (strStarts d.mimetype "image/" = true → env.previewGenOk = true →
        env.previewPutOk = true) →
      ∃ st' row, uploadFile st env d = (st', .ok row) ∧
        storageKeyOf d.userId d.mimetype
          (resolveFinalName d.name d.originalname env.fileId
            ((mimeExtension d.mimetype).getD "")) ∈ st'.store) := by
  constructor
  · intro e he
    by_cases hput : env.putOk <;>
      by_cases hgen : (strStarts d.mimetype "image/" && env.previewGenOk) = true <;>
      by_cases hpp : env.previewPutOk <;>
      simp [uploadFile, h, existsOrFalse, fileExists, hput, hgen, hpp] at he <;>
      (try subst he) <;> rfl
  · intro hput hprev
    by_cases hgen : (strStarts d.mimetype "image/" && env.previewGenOk) = true
    · have hpp : env.previewPutOk = true := by
        have hg := hgen
        simp only [Bool.and_eq_true] at hg
        exact hprev hg.1 hg.2
      simp only [uploadFile, h, existsOrFalse, fileExists, hput, hgen, hpp]
      norm_num
      exact mem_putKey_mono (mem_putKey_self _ _) _
    · simp only [uploadFile, h, existsOrFalse, fileExists, hput,
        Bool.eq_false_iff.mpr hgen]
      norm_num
      exact mem_putKey_self _ _

/-- C9 (witness): with the key already present in the store and the head
check erroring, the upload succeeds and the key stays written. -/
theorem uploadFile_existsError_swallowed_witness :
    ∃ st' row,
      uploadFile ⟨["u1/image/cat.png"], []⟩
          { fxEnv with headOutcome := fun _ => .errored } fxImg = (st', .ok row) ∧
      storageKeyOf fxImg.userId fxImg.mimetype
        (resolveFinalName fxImg.name fxImg.originalname
          ({ fxEnv with headOutcome := fun _ => .errored } : UploadEnv).fileId
          ((mimeExtension fxImg.mimetype).getD "")) ∈ st'.store :=
  (uploadFile_existsError_swallowed ⟨["u1/image/cat.png"], []⟩
    { fxEnv with headOutcome := fun _ => .errored } fxImg rfl).2 rfl (fun _ _ => rfl)

/-- C10: with no desired name and an empty original name, the base falls
back to `file-{fileId}` (the fresh uuid, which contains no dot), a
mime-derived extension is appended when known, and the upload succeeds with
storageKey `{ownerId}/{category}/{finalName}`. -/
theorem uploadFile_empty_name_fallback (st : SysState) (env : UploadEnv) (d : UploadData)
    (hname : d.name = none) (horig : d.originalname = "")
    (hdot : '.' ∉ env.fileId.data)
    (hfree : env.headOutcome (storageKeyOf d.userId d.mimetype
      (resolveFinalName d.name d.originalname env.fileId
        ((mimeExtension d.mimetype).getD ""))) = .notFound)
    (hput : env.putOk = true)
    (hprev : strStarts d.mimetype "image/" = true → env.previewGenOk = true →
      env.previewPutOk = true) :
    resolveFinalName d.name d.originalname env.fileId
        ((mimeExtension d.mimetype).getD "") =
      (if (mimeExtension d.mimetype).getD "" = "" then "file-" ++ env.fileId
       else "file-" ++ env.fileId ++ "." ++ (mimeExtension d.mimetype).getD "") ∧
    ∃ st' row, uploadFile st env d = (st', .ok row) ∧
      row.name = resolveFinalName d.name d.originalname env.fileId
        ((mimeExtension d.mimetype).getD "") ∧
      row.storageKey = storageKeyOf d.userId d.mimetype row.name := by
  constructor
  · rw [hname, horig]
    exact resolveFinalName_empty _ _ hdot
  · simp only [uploadFile]
    generalize resolveFinalName d.name d.originalname env.fileId
      ((mimeExtension d.mimetype).getD "") = fn at hfree ⊢
    by_cases hgen : (strStarts d.mimetype "image/" && env.previewGenOk) = true
    · have hpp : env.previewPutOk = true := by
        have hg := hgen
        simp only [Bool.and_eq_true] at hg
        exact hprev hg.1 hg.2
      simp only [hfree, existsOrFalse, fileExists, hput, hgen, hpp]
      exact ⟨_, _, rfl, rfl, rfl⟩
    · have hg2 : (strStarts d.mimetype "image/" && env.previewGenOk) = false := by
        simpa using hgen
      simp only [hfree, existsOrFalse, fileExists, hput, hg2]
      exact ⟨_, _, rfl, rfl, rfl⟩

/-- C10 (witness): the nameless upload fixture resolves to
`file-X.pdf` and succeeds. -/
theorem uploadFile_empty_name_fallback_witness :
    resolveFinalName fxNoName.name fxNoName.originalname fxEnv.fileId
        ((mimeExtension fxNoName.mimetype).getD "") =
      (if (mimeExtension fxNoName.mimetype).getD "" = "" then "file-" ++ fxEnv.fileId
       else "file-" ++ fxEnv.fileId ++ "." ++ (mimeExtension fxNoName.mimetype).getD "") ∧
    ∃ st' row, uploadFile ⟨[], []⟩ fxEnv fxNoName = (st', .ok row) ∧
      row.name = resolveFinalName fxNoName.name fxNoName.originalname fxEnv.fileId
        ((mimeExtension fxNoName.mimetype).getD "") ∧
      row.storageKey = storageKeyOf fxNoName.userId fxNoName.mimetype row.name :=
  uploadFile_empty_name_fallback ⟨[], []⟩ fxEnv fxNoName rfl rfl (by decide) rfl rfl
    (fun _ _ => rfl)

end OdinVault
